import Mathlib

/-!
Shallow embedding of the raymond ray tracer (src/math.rs, src/surface.rs,
src/texture.rs, src/scene.rs).  Rust `f32` values are idealised as real
numbers; `i32` casts keep Rust release-mode semantics (saturating
float-to-int casts, wrapping arithmetic); a Rust panic (an `unreachable!`
branch or an out-of-bounds index) is embedded as `none` of an `Option`
result.
-/

namespace Raymond

noncomputable section

open Real

/-- Saturating cast of a mathematical integer into the `i32` range, the
behaviour of a Rust `as i32` cast applied to a finite float. -/
def i32sat (x : ℤ) : ℤ := max (-(2 ^ 31)) (min (2 ^ 31 - 1) x)

/-- Wrapping of a mathematical integer into the `i32` range, the behaviour
of release-mode `i32` arithmetic on overflow. -/
def i32wrap (x : ℤ) : ℤ := (x + 2 ^ 31) % 2 ^ 32 - 2 ^ 31

/-- Truncating cast of a nonnegative real to `usize` (`as usize` on a
finite float: negative values clamp to 0, huge values to `usize::MAX`). -/
def usizeOfReal (x : ℝ) : ℕ := if x < 0 then 0 else min (⌊x⌋.toNat) (2 ^ 64 - 1)

/-- 3-D vector or position (`Vec3f` of src/math.rs), components idealised
as reals. -/
structure Vec3f where
  x : ℝ
  y : ℝ
  z : ℝ

/-- Linear RGB value (`RGB` of src/math.rs). -/
structure RGB where
  red : ℝ
  green : ℝ
  blue : ℝ

namespace Vec3f

/-- `Vec3f::UP` of src/math.rs. -/
def UP : Vec3f := ⟨0, 0, 1⟩

/-- `Vec3f::add` of src/math.rs. -/
def add (self other : Vec3f) : Vec3f := ⟨self.x + other.x, self.y + other.y, self.z + other.z⟩

/-- `Vec3f::sub` of src/math.rs. -/
def sub (self other : Vec3f) : Vec3f := ⟨self.x - other.x, self.y - other.y, self.z - other.z⟩

/-- `Vec3f::scale` of src/math.rs. -/
def scale (self : Vec3f) (factor : ℝ) : Vec3f :=
  ⟨self.x * factor, self.y * factor, self.z * factor⟩

/-- `Vec3f::dot` of src/math.rs. -/
def dot (self other : Vec3f) : ℝ := self.x * other.x + self.y * other.y + self.z * other.z

/-- `Vec3f::normalize` of src/math.rs. -/
def normalize (self : Vec3f) : Vec3f := self.scale (1 / Real.sqrt (self.dot self))

/-- `Vec3f::cross` of src/math.rs. -/
def cross (self other : Vec3f) : Vec3f :=
  ⟨self.y * other.z - self.z * other.y,
   self.z * other.x - self.x * other.z,
   self.x * other.y - self.y * other.x⟩

end Vec3f

namespace RGB

/-- `RGB::BLACK` of src/math.rs. -/
def BLACK : RGB := ⟨0, 0, 0⟩

/-- `RGB::map` of src/math.rs. -/
def map (self : RGB) (f : ℝ → ℝ) : RGB := ⟨f self.red, f self.green, f self.blue⟩

/-- `RGB::srgb_to_linear` of src/math.rs (`powf` idealised as `rpow`). -/
def srgb_to_linear (self : RGB) : RGB := self.map fun x => x ^ (2.2 : ℝ)

/-- `RGB::scale` of src/math.rs. -/
def scale (self : RGB) (factor : ℝ) : RGB :=
  ⟨self.red * factor, self.green * factor, self.blue * factor⟩

/-- `RGB::add` of src/math.rs. -/
def add (self other : RGB) : RGB :=
  ⟨self.red + other.red, self.green + other.green, self.blue + other.blue⟩

end RGB

/-- `solve_quadratic` of src/math.rs: roots of `ax^2 + bx + c = 0`, the
two-solution case only. -/
def solve_quadratic (a b c : ℝ) : Option (ℝ × ℝ) :=
  let discriminant := b * b - 4 * a * c
  if 0 < discriminant then
    let scale := 1 / (2 * a)
    let x := -b * scale
    let delta := Real.sqrt discriminant * scale
    some (x + delta, x - delta)
  else
    none

/-- `angle_of_reflection` of src/math.rs. -/
def angle_of_reflection (incident normal : Vec3f) : Vec3f :=
  incident.sub (normal.scale (2 * incident.dot normal))

/-- `gaussian_kernel` of src/math.rs.  `(sigma * 3.0).ceil() as i32` is the
saturating cast `i32sat`, and `(half_kernel_length * 2) + 1` is wrapping
`i32` arithmetic; a non-positive length yields the empty kernel, as the
empty Rust range `0..kernel_length` would. -/
def gaussian_kernel (sigma : ℝ) : List ℝ :=
  let half_kernel_length : ℤ := i32sat ⌈sigma * 3⌉
  let kernel_length : ℤ := i32wrap (half_kernel_length * 2 + 1)
  let kernel_scale_factor : ℝ := 1 / Real.sqrt (2 * π * sigma * sigma)
  (((List.range kernel_length.toNat).map fun i : ℕ => (((i : ℤ) - half_kernel_length : ℤ) : ℝ)).map
    fun x => kernel_scale_factor * Real.exp (-(x * x) / (2 * sigma * sigma)))

/-- `linear_interpolation` of src/math.rs; indexing `grid[_ % grid.len()]`
panics (`none`) on an empty grid, and is otherwise in bounds. -/
def linear_interpolation (grid : List RGB) (index : ℝ) : Option RGB :=
  if grid.length = 0 then none
  else
    let base_index := usizeOfReal index
    let fractional_index := index - (base_index : ℝ)
    let a := grid.getD (base_index % grid.length) RGB.BLACK
    let b := grid.getD ((base_index + 1) % grid.length) RGB.BLACK
    some ((a.scale (1 - fractional_index)).add (b.scale fractional_index))

/-- The loop of `mandelbrot_escape_time` of src/math.rs, with the remaining
iteration budget made explicit: `fuel` starts at `MAX_ITERATIONS` and the
iteration counter `i` at 0, so the `i == MAX_ITERATIONS` exit fires before
fuel ever runs out. -/
def mandelbrotGo (c : ℂ) : ℕ → ℂ → ℕ → Option ℝ
  | 0, _, _ => none
  | fuel + 1, z, i =>
    let z2 := z * z + c
    let i2 := i + 1
    if 50 * 50 < Complex.normSq z2 then
      some ((i2 : ℝ) - Real.log (0.5 * Real.log (Complex.normSq z2) / Real.log 50) / Real.log 2)
    else if i2 = 100 then none
    else mandelbrotGo c fuel z2 i2

/-- `mandelbrot_escape_time` of src/math.rs. -/
def mandelbrot_escape_time (c : ℂ) : Option ℝ := mandelbrotGo c 100 0 0

/-- `SurfaceProperties` of src/surface.rs. -/
structure SurfaceProperties where
  normal : Vec3f
  u : ℝ
  v : ℝ

/-- `Sphere` of src/surface.rs. -/
structure Sphere where
  center : Vec3f
  radius : ℝ

/-- `Plane` of src/surface.rs. -/
structure Plane where
  position : Vec3f
  u_basis : Vec3f
  v_basis : Vec3f
  normal : Vec3f

/-- `Quad` of src/surface.rs. -/
structure Quad where
  plane : Plane
  width : ℝ
  height : ℝ

/-- `Plane::new` of src/surface.rs. -/
def Plane.new (position u_basis v_basis : Vec3f) : Plane :=
  ⟨position, u_basis, v_basis, u_basis.cross v_basis⟩

/-- `f32::atan2`, the usual four-quadrant arctangent. -/
def atan2 (y x : ℝ) : ℝ :=
  if 0 < x then Real.arctan (y / x)
  else if x < 0 then
    (if 0 ≤ y then Real.arctan (y / x) + π else Real.arctan (y / x) - π)
  else if 0 < y then π / 2
  else if y < 0 then -(π / 2)
  else 0

/-- `Sphere::intersection_with_ray` of src/surface.rs.  The Rust
`match (t1 > 0.0, t2 > 0.0)` over the four boolean cases is written as
nested conditionals. -/
def Sphere.intersection_with_ray (self : Sphere) (ray_origin ray_direction : Vec3f) :
    Option ℝ :=
  let origin_minus_center := ray_origin.sub self.center
  let a := ray_direction.dot ray_direction
  let b := 2 * ray_direction.dot origin_minus_center
  let c := origin_minus_center.dot origin_minus_center - self.radius * self.radius
  match solve_quadratic a b c with
  | some (t1, t2) =>
    if 0 < t1 then (if 0 < t2 then some (min t1 t2) else some t1)
    else (if 0 < t2 then some t2 else none)
  | none => none

/-- `Sphere::at_point` of src/surface.rs (the source computes the
normalised offset twice, as `d` and as `normal`). -/
def Sphere.at_point (self : Sphere) (point_on_surface : Vec3f) : SurfaceProperties :=
  let d := (point_on_surface.sub self.center).normalize
  let normal := (point_on_surface.sub self.center).normalize
  let u := 0.5 + atan2 d.y d.x * (1 / (2 * π))
  let v := 0.5 - Real.arcsin d.z * (1 / π)
  ⟨normal, u, v⟩

/-- `Plane::intersection_with_ray` of src/surface.rs. -/
def Plane.intersection_with_ray (self : Plane) (ray_origin ray_direction : Vec3f) :
    Option ℝ :=
  let denom := ray_direction.dot self.normal
  if |denom| < 0.001 then none
  else
    let numer := (self.position.sub ray_origin).dot self.normal
    let d := numer / denom
    if 0 < d then some d else none

/-- `Plane::at_point` of src/surface.rs. -/
def Plane.at_point (self : Plane) (point_on_surface : Vec3f) : SurfaceProperties :=
  let vec_within_plane := point_on_surface.sub self.position
  ⟨self.normal, vec_within_plane.dot self.u_basis, vec_within_plane.dot self.v_basis⟩

/-- `Quad::intersection_with_ray` of src/surface.rs; `Option::filter` with
the quad-bounds predicate is written as a match plus conditional. -/
def Quad.intersection_with_ray (self : Quad) (ray_origin ray_direction : Vec3f) :
    Option ℝ :=
  match self.plane.intersection_with_ray ray_origin ray_direction with
  | none => none
  | some d =>
    let point := ray_origin.add (ray_direction.scale d)
    let surf_prop := self.plane.at_point point
    if (0 ≤ surf_prop.u ∧ surf_prop.u < self.width) ∧
        (0 ≤ surf_prop.v ∧ surf_prop.v ≤ self.height) then some d
    else none

/-- `Quad::at_point` of src/surface.rs. -/
def Quad.at_point (self : Quad) (point_on_surface : Vec3f) : SurfaceProperties :=
  self.plane.at_point point_on_surface

/-- The closed set of `dyn Surface` implementors of src/surface.rs. -/
inductive Surface where
  | sphere : Sphere → Surface
  | plane : Plane → Surface
  | quad : Quad → Surface

/-- Dynamic dispatch of `Surface::intersection_with_ray`. -/
def Surface.intersection_with_ray : Surface → Vec3f → Vec3f → Option ℝ
  | .sphere s, o, d => s.intersection_with_ray o d
  | .plane p, o, d => p.intersection_with_ray o d
  | .quad q, o, d => q.intersection_with_ray o d

/-- Dynamic dispatch of `Surface::at_point`. -/
def Surface.at_point : Surface → Vec3f → SurfaceProperties
  | .sphere s, p => s.at_point p
  | .plane pl, p => pl.at_point p
  | .quad q, p => q.at_point p

/-- `TextureColor` of src/texture.rs. -/
inductive TextureColor where
  | plainColor : RGB → TextureColor
  | castRay : Vec3f → Vec3f → TextureColor

/-- The checker selector of `Checkerboard::color` (src/texture.rs): the
scrutinee `(square_number + 1_000_000) % 2`, where `square_number` is
`(u.floor() + v.floor()) as i32` (a saturating cast), the biased addition
is `i32` arithmetic that wraps in release mode (`i32wrap`), and `%` is
Rust's truncating remainder `Int.tmod`. -/
def Checkerboard.selector (u v : ℝ) : ℤ :=
  (i32wrap (i32sat (⌊u⌋ + ⌊v⌋) + 1000000)).tmod 2

/-- Which of the two sub-textures `Checkerboard::color` consults at
`(u, v)`: `none` when the selector falls outside `{0, 1}` and the
`unreachable!` branch panics. -/
def Checkerboard.consulted (u v : ℝ) : Option (Fin 2) :=
  if Checkerboard.selector u v = 0 then some 0
  else if Checkerboard.selector u v = 1 then some 1
  else none

/-- `Checkerboard::color` of src/texture.rs.  The two boxed child textures
are arbitrary texture functions; `square_number + 1_000_000` is wrapping
release-mode `i32` addition; the `unreachable!` arm of the match is the
panic outcome `none`. -/
def Checkerboard.color (texture1 texture2 : ℝ → ℝ → TextureColor) (u v : ℝ) :
    Option TextureColor :=
  let square_number : ℤ := i32sat (⌊u⌋ + ⌊v⌋)
  let square_u := u - ⌊u⌋
  let square_v := v - ⌊v⌋
  if (i32wrap (square_number + 1000000)).tmod 2 = 0 then some (texture1 square_u square_v)
  else if (i32wrap (square_number + 1000000)).tmod 2 = 1 then some (texture2 square_u square_v)
  else none

/-- A concrete constant sub-texture (solid red) for closed evaluations of
`Checkerboard::color`. -/
def exampleTexture1 : ℝ → ℝ → TextureColor := fun _ _ => .plainColor ⟨1, 0, 0⟩

/-- A second, distinct concrete constant sub-texture (solid green). -/
def exampleTexture2 : ℝ → ℝ → TextureColor := fun _ _ => .plainColor ⟨0, 1, 0⟩

/-- `Camera` of src/scene.rs. -/
structure Camera where
  position : Vec3f
  direction : Vec3f
  delta_x : Vec3f
  delta_y : Vec3f

/-- `Camera::new` of src/scene.rs. -/
def Camera.new (position direction : Vec3f) (fov_degrees : ℝ) : Camera :=
  let fov_radians := fov_degrees * (2 * π / 360)
  let fov_scale := Real.tan (fov_radians / 2)
  let delta_x := (direction.cross Vec3f.UP).normalize.scale fov_scale
  let delta_y := (direction.cross delta_x).normalize.scale fov_scale
  ⟨position, direction.normalize, delta_x, delta_y⟩

/-- `Camera::ray_origin` of src/scene.rs. -/
def Camera.ray_origin (self : Camera) : Vec3f := self.position

/-- `Camera::ray_direction` of src/scene.rs. -/
def Camera.ray_direction (self : Camera) (x y : ℝ) : Vec3f :=
  (self.direction.add (self.delta_x.scale x)).add (self.delta_y.scale y)

/-- `FLOAT_BIAS` of src/scene.rs. -/
def FLOAT_BIAS : ℝ := 0.001

/-- `LightSource` of src/scene.rs. -/
structure LightSource where
  dir_to_light : Vec3f
  intensity : ℝ

/-- Modelled from the spec: the `Texture` trait objects consumed by
`Scene::cast` in src/scene.rs.  src/scene.rs calls
`texture.color(&self, max_depth, u, v)`, but the trait implementation with
that signature is not among the source files (src/texture.rs declares an
earlier two-argument `color`), so the variant set follows section 4.2 of
the spec: solid color, checkerboard composition, coordinate remapping,
Mandelbrot-set coloring, and a portal holding a `Camera`. -/
inductive Texture where
  | rgb : RGB → Texture
  | checkerboard : Texture → Texture → Texture
  | coordinateTransform : Texture → ℝ → ℝ → ℝ → ℝ → Texture
  | mandelbrotSet : List RGB → Texture
  | portal : Camera → Texture

/-- `MandelbrotSet`'s texture color (src/texture.rs): escape time at
`u + vi`, colored through the ramp, black inside the set; the panic of
`linear_interpolation` on an empty colormap propagates as `none`. -/
def MandelbrotSet.color (colormap : List RGB) (u v : ℝ) : Option RGB :=
  match mandelbrot_escape_time ⟨u, v⟩ with
  | some t => (linear_interpolation colormap (t * 0.25)).map RGB.srgb_to_linear
  | none => some RGB.BLACK

/-- Modelled from the spec: `Texture::color(scene, remaining_depth, u, v)`
as described in sections 4.2 and 9, with the scene's recursive cast at one
less remaining depth supplied as the function `castLower`.  The
checkerboard determines the checker index `floor(u) + floor(v)`, biases it
by the large even offset to keep the modulo non-negative (`Int.emod`), and
dispatches to one of its two children with the fractional parts; the
coordinate transform applies offset then scale; the portal asks its camera
for a ray and re-enters the cast. -/
def Texture.colorWith (castLower : Vec3f → Vec3f → Option RGB) :
    Texture → ℝ → ℝ → Option RGB
  | .rgb c, _, _ => some c
  | .checkerboard texture1 texture2, u, v =>
    if (⌊u⌋ + ⌊v⌋ + 1000000) % 2 = 0 then
      Texture.colorWith castLower texture1 (u - ⌊u⌋) (v - ⌊v⌋)
    else
      Texture.colorWith castLower texture2 (u - ⌊u⌋) (v - ⌊v⌋)
  | .coordinateTransform texture u_offset v_offset u_scale v_scale, u, v =>
    Texture.colorWith castLower texture (u_scale * (u_offset + u)) (v_scale * (v_offset + v))
  | .mandelbrotSet colormap, u, v => MandelbrotSet.color colormap u v
  | .portal camera, u, v => castLower camera.ray_origin (camera.ray_direction u v)

/-- `VisObj` of src/scene.rs. -/
structure VisObj where
  surface : Surface
  texture : Texture
  reflectivity : ℝ

/-- `Scene` of src/scene.rs. -/
structure Scene where
  background : RGB
  ambient_light_intensity : ℝ
  light_sources : List LightSource
  objects : List VisObj

/-- Rust's `Iterator::min_by` with the comparison `d1.partial_cmp(d2)`:
`reduce` with `cmp::min_by`, which keeps the accumulator unless it compares
`Greater` (so the first of equally minimal elements wins).  Over the reals
`partial_cmp` is total and its `unwrap` cannot panic. -/
def min_by_dist (l : List (VisObj × ℝ)) : Option (VisObj × ℝ) :=
  match l with
  | [] => none
  | x :: xs => some (xs.foldl (fun acc y => if acc.2 > y.2 then y else acc) x)

/-- `Scene::trace_to_nearest_object` of src/scene.rs. -/
def Scene.trace_to_nearest_object (self : Scene) (ray_origin ray_direction : Vec3f) :
    Option (VisObj × ℝ) :=
  min_by_dist (self.objects.filterMap fun vobj =>
    (vobj.surface.intersection_with_ray ray_origin ray_direction).map fun dist => (vobj, dist))

/-- `Scene::light_on_surface` of src/scene.rs. -/
def Scene.light_on_surface (self : Scene) (surface_position surface_normal : Vec3f) : ℝ :=
  let trace_pos := surface_position.add (surface_normal.scale FLOAT_BIAS)
  let lambert_light_intensity : ℝ :=
    (self.light_sources.map fun light_source =>
      match self.trace_to_nearest_object trace_pos light_source.dir_to_light with
      | some _ => 0
      | none =>
        max (light_source.dir_to_light.normalize.dot surface_normal) 0 *
          light_source.intensity).sum
  self.ambient_light_intensity + lambert_light_intensity

/-- `Scene::cast` of src/scene.rs.  The `i32` depth counter is represented
by its unsigned value (release-mode `max_depth - 1` wraps, so every `i32`
bit pattern counts down to 0 through the naturals); a texture panic
propagates as `none`.  The texture receives the scene and the current
depth, per section 9 of the spec, so its portal recursion runs at
`max_depth - 1`. -/
def Scene.cast (self : Scene) (ray_origin ray_direction : Vec3f) : ℕ → Option RGB
  | 0 => some self.background
  | n + 1 =>
    match self.trace_to_nearest_object ray_origin ray_direction with
    | some (vobj, dist) =>
      let intersection_pos := ray_origin.add (ray_direction.scale dist)
      let surf_prop := vobj.surface.at_point intersection_pos
      let light_intensity := self.light_on_surface intersection_pos surf_prop.normal
      let vobj_color :=
        Texture.colorWith (fun o d => self.cast o d n) vobj.texture surf_prop.u surf_prop.v
      let reflected_color :=
        if vobj.reflectivity ≠ 0 then
          (self.cast (intersection_pos.add (surf_prop.normal.scale FLOAT_BIAS))
              (angle_of_reflection ray_direction surf_prop.normal) n).map
            fun c => c.scale vobj.reflectivity
        else some RGB.BLACK
      vobj_color.bind fun c => reflected_color.map fun r => (c.scale light_intensity).add r
    | none => some self.background

mutual
/-- Big-step evaluation relation for `Scene::cast`, mirroring its source: a
remaining depth of 0 returns the background at once; otherwise the nearest
hit is shaded, the texture is evaluated at the current depth, and a
reflective bounce re-enters the cast with the depth counter decreased by
exactly 1 (`n - 1` under `n ≠ 0`). -/
inductive CastRel (s : Scene) : Vec3f → Vec3f → ℕ → Option RGB → Prop where
  | depth_zero (o d : Vec3f) : CastRel s o d 0 (some s.background)
  | miss (o d : Vec3f) (n : ℕ) (hn : n ≠ 0)
      (htrace : s.trace_to_nearest_object o d = none) :
      CastRel s o d n (some s.background)
  | hit_matte (o d : Vec3f) (n : ℕ) (vobj : VisObj) (dist : ℝ) (oc : Option RGB)
      (hn : n ≠ 0)
      (htrace : s.trace_to_nearest_object o d = some (vobj, dist))
      (hrefl : vobj.reflectivity = 0)
      (hcolor : ColorRel s vobj.texture n
        (vobj.surface.at_point (o.add (d.scale dist))).u
        (vobj.surface.at_point (o.add (d.scale dist))).v oc) :
      CastRel s o d n
        (oc.bind fun c => (some RGB.BLACK).map fun r =>
          (c.scale (s.light_on_surface (o.add (d.scale dist))
            (vobj.surface.at_point (o.add (d.scale dist))).normal)).add r)
  | hit_reflective (o d : Vec3f) (n : ℕ) (vobj : VisObj) (dist : ℝ)
      (oc orc : Option RGB)
      (hn : n ≠ 0)
      (htrace : s.trace_to_nearest_object o d = some (vobj, dist))
      (hrefl : vobj.reflectivity ≠ 0)
      (hcolor : ColorRel s vobj.texture n
        (vobj.surface.at_point (o.add (d.scale dist))).u
        (vobj.surface.at_point (o.add (d.scale dist))).v oc)
      (hbounce : CastRel s
        ((o.add (d.scale dist)).add
          ((vobj.surface.at_point (o.add (d.scale dist))).normal.scale FLOAT_BIAS))
        (angle_of_reflection d (vobj.surface.at_point (o.add (d.scale dist))).normal)
        (n - 1) orc) :
      CastRel s o d n
        (oc.bind fun c => (orc.map fun cr => cr.scale vobj.reflectivity).map fun r =>
          (c.scale (s.light_on_surface (o.add (d.scale dist))
            (vobj.surface.at_point (o.add (d.scale dist))).normal)).add r)

/-- Big-step evaluation relation for the texture-color call of
`Scene::cast` (the spec-modelled `Texture::color`): composite textures
recurse structurally at the same depth, and a portal re-enters the cast at
depth `n - 1`. -/
inductive ColorRel (s : Scene) : Texture → ℕ → ℝ → ℝ → Option RGB → Prop where
  | rgb (c : RGB) (n : ℕ) (u v : ℝ) : ColorRel s (.rgb c) n u v (some c)
  | checkerboard_even (t1 t2 : Texture) (n : ℕ) (u v : ℝ) (r : Option RGB)
      (h : (⌊u⌋ + ⌊v⌋ + 1000000) % 2 = 0)
      (hc : ColorRel s t1 n (u - ⌊u⌋) (v - ⌊v⌋) r) :
      ColorRel s (.checkerboard t1 t2) n u v r
  | checkerboard_odd (t1 t2 : Texture) (n : ℕ) (u v : ℝ) (r : Option RGB)
      (h : ¬(⌊u⌋ + ⌊v⌋ + 1000000) % 2 = 0)
      (hc : ColorRel s t2 n (u - ⌊u⌋) (v - ⌊v⌋) r) :
      ColorRel s (.checkerboard t1 t2) n u v r
  | coordinate_transform (t : Texture) (u_offset v_offset u_scale v_scale : ℝ)
      (n : ℕ) (u v : ℝ) (r : Option RGB)
      (hc : ColorRel s t n (u_scale * (u_offset + u)) (v_scale * (v_offset + v)) r) :
      ColorRel s (.coordinateTransform t u_offset v_offset u_scale v_scale) n u v r
  | mandelbrot (colormap : List RGB) (n : ℕ) (u v : ℝ) :
      ColorRel s (.mandelbrotSet colormap) n u v (MandelbrotSet.color colormap u v)
  | portal (camera : Camera) (n : ℕ) (u v : ℝ) (r : Option RGB)
      (hc : CastRel s camera.ray_origin (camera.ray_direction u v) (n - 1) r) :
      ColorRel s (.portal camera) n u v r
end

/-- The spec-modelled texture evaluation satisfies its big-step relation at
depth `m + 1` whenever the cast it re-enters satisfies its own at depth
`m`. -/
theorem colorWith_rel (s : Scene) (m : ℕ)
    (IH : ∀ o d, CastRel s o d m (s.cast o d m)) :
    ∀ (t : Texture) (u v : ℝ),
      ColorRel s t (m + 1) u v (Texture.colorWith (fun o d => s.cast o d m) t u v) := by
  intro t
  induction t with
  | rgb c => intro u v; exact ColorRel.rgb c (m + 1) u v
  | checkerboard t1 t2 ih1 ih2 =>
    intro u v
    by_cases h : (⌊u⌋ + ⌊v⌋ + 1000000) % 2 = 0
    · rw [show Texture.colorWith (fun o d => s.cast o d m) (.checkerboard t1 t2) u v =
        Texture.colorWith (fun o d => s.cast o d m) t1 (u - ⌊u⌋) (v - ⌊v⌋) by
          simp [Texture.colorWith, h]]
      exact ColorRel.checkerboard_even t1 t2 (m + 1) u v _ h (ih1 _ _)
    · rw [show Texture.colorWith (fun o d => s.cast o d m) (.checkerboard t1 t2) u v =
        Texture.colorWith (fun o d => s.cast o d m) t2 (u - ⌊u⌋) (v - ⌊v⌋) by
          simp [Texture.colorWith, h]]
      exact ColorRel.checkerboard_odd t1 t2 (m + 1) u v _ h (ih2 _ _)
  | coordinateTransform t u_offset v_offset u_scale v_scale ih =>
    intro u v
    exact ColorRel.coordinate_transform t u_offset v_offset u_scale v_scale (m + 1) u v _
      (ih _ _)
  | mandelbrotSet colormap =>
    intro u v
    exact ColorRel.mandelbrot colormap (m + 1) u v
  | portal camera =>
    intro u v
    exact ColorRel.portal camera (m + 1) u v _ (IH _ _)

/-- C2: `Scene::cast` terminates for every scene, ray and initial depth:
its big-step relation — whose reflective-bounce premise (and the portal
premise of the texture relation) carries the strictly smaller counter
`n - 1`, and whose depth-0 rule returns immediately — is total, with the
recursively defined `Scene.cast` as its value.  The proof is induction on
the depth counter, which is exactly the well-foundedness the claim
asserts. -/
theorem cast_terminates (s : Scene) (o d : Vec3f) (n : ℕ) :
    CastRel s o d n (s.cast o d n) := by
  induction n generalizing o d with
  | zero => exact CastRel.depth_zero o d
  | succ n ih =>
    rcases htrace : s.trace_to_nearest_object o d with _ | ⟨vobj, dist⟩
    · rw [show s.cast o d (n + 1) = some s.background by simp [Scene.cast, htrace]]
      exact CastRel.miss o d (n + 1) (Nat.succ_ne_zero n) htrace
    · by_cases hrefl : vobj.reflectivity = 0
      · rw [show s.cast o d (n + 1) =
          ((Texture.colorWith (fun o d => s.cast o d n) vobj.texture
              (vobj.surface.at_point (o.add (d.scale dist))).u
              (vobj.surface.at_point (o.add (d.scale dist))).v).bind fun c =>
            (some RGB.BLACK).map fun r =>
              (c.scale (s.light_on_surface (o.add (d.scale dist))
                (vobj.surface.at_point (o.add (d.scale dist))).normal)).add r) by
            simp [Scene.cast, htrace, hrefl]]
        exact CastRel.hit_matte o d (n + 1) vobj dist _ (Nat.succ_ne_zero n) htrace hrefl
          (colorWith_rel s n ih vobj.texture _ _)
      · rw [show s.cast o d (n + 1) =
          ((Texture.colorWith (fun o d => s.cast o d n) vobj.texture
              (vobj.surface.at_point (o.add (d.scale dist))).u
              (vobj.surface.at_point (o.add (d.scale dist))).v).bind fun c =>
            ((s.cast ((o.add (d.scale dist)).add
                  ((vobj.surface.at_point (o.add (d.scale dist))).normal.scale FLOAT_BIAS))
                (angle_of_reflection d
                  (vobj.surface.at_point (o.add (d.scale dist))).normal) n).map
              (fun cr => cr.scale vobj.reflectivity)).map fun r =>
              (c.scale (s.light_on_surface (o.add (d.scale dist))
                (vobj.surface.at_point (o.add (d.scale dist))).normal)).add r) by
            simp [Scene.cast, htrace, hrefl]]
        exact CastRel.hit_reflective o d (n + 1) vobj dist _ _ (Nat.succ_ne_zero n) htrace
          hrefl (colorWith_rel s n ih vobj.texture _ _) (ih _ _)

/-- C1: casting with a remaining depth of 0 returns the scene's background
color at once, whatever the scene's objects, lights and textures and
whatever the ray. -/
theorem cast_depth_zero_eq_background (s : Scene) (ray_origin ray_direction : Vec3f) :
    s.cast ray_origin ray_direction 0 = some s.background := rfl

/-- A plane intersection distance, when reported, is strictly positive. -/
theorem plane_intersection_distance_pos (p : Plane) (o d : Vec3f) (t : ℝ)
    (h : p.intersection_with_ray o d = some t) : 0 < t := by
  unfold Plane.intersection_with_ray at h
  dsimp only at h
  split_ifs at h with h1 h2
  injection h with h
  exact h ▸ h2

/-- A sphere intersection distance, when reported, is strictly positive. -/
theorem sphere_intersection_distance_pos (sp : Sphere) (o d : Vec3f) (t : ℝ)
    (h : sp.intersection_with_ray o d = some t) : 0 < t := by
  unfold Sphere.intersection_with_ray at h
  dsimp only at h
  split at h
  case h_2 => cases h
  case h_1 t1 t2 heq =>
    split_ifs at h with h1 h2 h3
    · injection h with h
      exact h ▸ lt_min h1 h2
    · injection h with h
      exact h ▸ h1
    · injection h with h
      exact h ▸ h3

/-- A quad intersection distance, when reported, is strictly positive. -/
theorem quad_intersection_distance_pos (q : Quad) (o d : Vec3f) (t : ℝ)
    (h : q.intersection_with_ray o d = some t) : 0 < t := by
  unfold Quad.intersection_with_ray at h
  dsimp only at h
  split at h
  case h_1 => cases h
  case h_2 d0 heq =>
    split_ifs at h with h1
    injection h with h
    exact h ▸ plane_intersection_distance_pos q.plane o d d0 heq

/-- C3: for every surface variant and every ray, a reported intersection
distance is strictly positive — hits at or behind the ray origin are never
reported. -/
theorem surface_intersection_pos (surf : Surface) (ray_origin ray_direction : Vec3f)
    (t : ℝ) (h : surf.intersection_with_ray ray_origin ray_direction = some t) : 0 < t := by
  cases surf with
  | sphere s => exact sphere_intersection_distance_pos s ray_origin ray_direction t h
  | plane p => exact plane_intersection_distance_pos p ray_origin ray_direction t h
  | quad q => exact quad_intersection_distance_pos q ray_origin ray_direction t h

/-- C6: a quad reports exactly the distances its underlying plane reports
whose hit point parameterises inside `[0, width) × [0, height]` — the `u`
bound exclusive above, the `v` bound inclusive above. -/
theorem quad_intersection_iff (q : Quad) (ray_origin ray_direction : Vec3f) (t : ℝ) :
    q.intersection_with_ray ray_origin ray_direction = some t ↔
      q.plane.intersection_with_ray ray_origin ray_direction = some t ∧
        (0 ≤ (q.plane.at_point (ray_origin.add (ray_direction.scale t))).u ∧
          (q.plane.at_point (ray_origin.add (ray_direction.scale t))).u < q.width) ∧
        (0 ≤ (q.plane.at_point (ray_origin.add (ray_direction.scale t))).v ∧
          (q.plane.at_point (ray_origin.add (ray_direction.scale t))).v ≤ q.height) := by
  unfold Quad.intersection_with_ray
  cases hp : q.plane.intersection_with_ray ray_origin ray_direction with
  | none => simp
  | some d0 =>
    dsimp only
    split_ifs with hcond
    · constructor
      · intro h
        rw [Option.some.injEq] at h
        subst h
        exact ⟨rfl, hcond.1, hcond.2⟩
      · intro ⟨h1, _⟩
        exact h1
    · constructor
      · intro h
        cases h
      · intro ⟨h1, h2, h3⟩
        rw [Option.some.injEq] at h1
        subst h1
        exact absurd ⟨h2, h3⟩ hcond

/-- C10: the quadratic solver reports roots exactly when the discriminant
is strictly positive (a zero or negative discriminant reports no
solution), and consequently the ray from `(-10, 1, 0)` along `(1, 0, 0)`,
exactly tangent to the unit sphere at the origin, reports no
intersection. -/
theorem solve_quadratic_some_iff_and_tangent_none :
    (∀ a b c : ℝ, (solve_quadratic a b c).isSome ↔ 0 < b * b - 4 * a * c) ∧
      Sphere.intersection_with_ray ⟨⟨0, 0, 0⟩, 1⟩ ⟨-10, 1, 0⟩ ⟨1, 0, 0⟩ = none := by
  constructor
  · intro a b c
    unfold solve_quadratic
    dsimp only
    split_ifs with h <;> simp [h]
  · have hq : solve_quadratic ((1 : ℝ) * 1 + 0 * 0 + 0 * 0)
        (2 * (1 * (-10 - 0) + 0 * (1 - 0) + 0 * (0 - 0)))
        ((-10 - 0) * (-10 - 0) + (1 - 0) * (1 - 0) + (0 - 0) * (0 - 0) - 1 * 1) = none := by
      unfold solve_quadratic
      norm_num
    simp only [Sphere.intersection_with_ray, Vec3f.dot, Vec3f.sub, hq]

/-- Concrete evaluation: the unit sphere at the origin, hit by the ray
from `(-10, 0, 0)` along `(1, 0, 0)`, reports distance 9 (the roots of the
quadratic are 11 and 9). -/
theorem unit_sphere_hit_eval :
    Sphere.intersection_with_ray ⟨⟨0, 0, 0⟩, 1⟩ ⟨-10, 0, 0⟩ ⟨1, 0, 0⟩ = some 9 := by
  have h4 : Real.sqrt 4 = 2 := by
    rw [show (4 : ℝ) = 2 ^ 2 by norm_num, Real.sqrt_sq (by norm_num : (0 : ℝ) ≤ 2)]
  simp only [Sphere.intersection_with_ray, solve_quadratic, Vec3f.dot, Vec3f.sub]
  norm_num [h4]

/-- The same concrete evaluation through the `Surface` dispatch. -/
theorem unit_sphere_hit_eval_surface :
    Surface.intersection_with_ray (.sphere ⟨⟨0, 0, 0⟩, 1⟩) ⟨-10, 0, 0⟩ ⟨1, 0, 0⟩ = some 9 :=
  unit_sphere_hit_eval

/-- Witness for C3: the reported distance 9 of a concrete sphere hit is
strictly positive. -/
theorem surface_intersection_pos_witness :
    Surface.intersection_with_ray (.sphere ⟨⟨0, 0, 0⟩, 1⟩) ⟨-10, 0, 0⟩ ⟨1, 0, 0⟩ = some 9 ∧
      (0 : ℝ) < 9 :=
  ⟨unit_sphere_hit_eval_surface,
    surface_intersection_pos (.sphere ⟨⟨0, 0, 0⟩, 1⟩) ⟨-10, 0, 0⟩ ⟨1, 0, 0⟩ 9
      unit_sphere_hit_eval_surface⟩

/-- Concrete evaluation: the sphere normal at the hit point `(-1, 0, 0)` of
the unit sphere is `(-1, 0, 0)`. -/
theorem unit_sphere_normal_eval :
    (Sphere.at_point ⟨⟨0, 0, 0⟩, 1⟩ ⟨-1, 0, 0⟩).normal = ⟨-1, 0, 0⟩ := by
  simp only [Sphere.at_point, Vec3f.normalize, Vec3f.scale, Vec3f.sub, Vec3f.dot]
  norm_num

/-- C5: a sphere selects, among the two roots the quadratic solver
reports, the smallest strictly positive one, and reports no intersection
when both roots are non-positive; concretely, the unit sphere at the
origin hit from `(-10, 0, 0)` along `(1, 0, 0)` reports distance 9, and
`at_point` at the hit point `(-1, 0, 0)` reports normal `(-1, 0, 0)`. -/
theorem sphere_selects_min_positive_root :
    (∀ (sp : Sphere) (o d : Vec3f) (t1 t2 : ℝ),
      solve_quadratic (d.dot d) (2 * d.dot (o.sub sp.center))
          ((o.sub sp.center).dot (o.sub sp.center) - sp.radius * sp.radius) = some (t1, t2) →
        (sp.intersection_with_ray o d = none ↔ t1 ≤ 0 ∧ t2 ≤ 0) ∧
          ∀ t, sp.intersection_with_ray o d = some t ↔
            0 < t ∧ (t = t1 ∨ t = t2) ∧ ∀ r, (r = t1 ∨ r = t2) → 0 < r → t ≤ r) ∧
      Sphere.intersection_with_ray ⟨⟨0, 0, 0⟩, 1⟩ ⟨-10, 0, 0⟩ ⟨1, 0, 0⟩ = some 9 ∧
      (Sphere.at_point ⟨⟨0, 0, 0⟩, 1⟩ ⟨-1, 0, 0⟩).normal = ⟨-1, 0, 0⟩ := by
  refine ⟨?_, unit_sphere_hit_eval, unit_sphere_normal_eval⟩
  intro sp o d t1 t2 hq
  have hI : sp.intersection_with_ray o d =
      (if 0 < t1 then (if 0 < t2 then some (min t1 t2) else some t1)
        else (if 0 < t2 then some t2 else none)) := by
    unfold Sphere.intersection_with_ray
    dsimp only
    rw [hq]
  by_cases h1 : 0 < t1 <;> by_cases h2 : 0 < t2
  · rw [hI, if_pos h1, if_pos h2]
    refine ⟨by simp [not_le.mpr h1], ?_⟩
    intro t
    constructor
    · intro h
      injection h with h
      subst h
      exact ⟨lt_min h1 h2, (min_choice t1 t2).imp id id,
        fun r hr _ => hr.elim (fun e => e ▸ min_le_left t1 t2) fun e => e ▸ min_le_right t1 t2⟩
    · rintro ⟨hpos, hmem, hmin⟩
      have hle1 := hmin t1 (Or.inl rfl) h1
      have hle2 := hmin t2 (Or.inr rfl) h2
      have : t = min t1 t2 :=
        le_antisymm (le_min hle1 hle2) (hmem.elim (fun e => e ▸ min_le_left t1 t2)
          fun e => e ▸ min_le_right t1 t2)
      rw [this]
  · rw [hI, if_pos h1, if_neg h2]
    refine ⟨by simp [not_le.mpr h1], ?_⟩
    intro t
    constructor
    · intro h
      injection h with h
      subst h
      exact ⟨h1, Or.inl rfl, fun r hr hrpos =>
        hr.elim (fun e => e ▸ le_refl t1) fun e => absurd (e ▸ hrpos) h2⟩
    · rintro ⟨hpos, hmem, -⟩
      rcases hmem with rfl | rfl
      · rfl
      · exact absurd hpos h2
  · rw [hI, if_neg h1, if_pos h2]
    refine ⟨by simp [not_le.mpr h2], ?_⟩
    intro t
    constructor
    · intro h
      injection h with h
      subst h
      exact ⟨h2, Or.inr rfl, fun r hr hrpos =>
        hr.elim (fun e => absurd (e ▸ hrpos) h1) fun e => e ▸ le_refl t2⟩
    · rintro ⟨hpos, hmem, -⟩
      rcases hmem with rfl | rfl
      · exact absurd hpos h1
      · rfl
  · rw [hI, if_neg h1, if_neg h2]
    refine ⟨by simp [not_lt.mp h1, not_lt.mp h2], ?_⟩
    intro t
    constructor
    · intro h
      cases h
    · rintro ⟨hpos, hmem, -⟩
      rcases hmem with rfl | rfl
      · exact absurd hpos h1
      · exact absurd hpos h2

/-- The fold underlying `min_by`: its result is one of the folded elements
and its distance is minimal among them. -/
theorem min_by_fold_spec :
    ∀ (xs : List (VisObj × ℝ)) (x : VisObj × ℝ),
      xs.foldl (fun acc y => if acc.2 > y.2 then y else acc) x ∈ x :: xs ∧
        ∀ q ∈ x :: xs, (xs.foldl (fun acc y => if acc.2 > y.2 then y else acc) x).2 ≤ q.2 := by
  intro xs
  induction xs with
  | nil =>
    intro x
    refine ⟨List.mem_singleton.mpr rfl, ?_⟩
    intro q hq
    rw [List.mem_singleton] at hq
    subst hq
    exact le_refl _
  | cons y ys ih =>
    intro x
    obtain ⟨hmem, hle⟩ := ih (if x.2 > y.2 then y else x)
    have hz1 : (if x.2 > y.2 then y else x).2 ≤ x.2 := by
      split_ifs with hxy
      · exact le_of_lt hxy
      · exact le_refl _
    have hz2 : (if x.2 > y.2 then y else x).2 ≤ y.2 := by
      split_ifs with hxy
      · exact le_refl _
      · exact not_lt.mp hxy
    constructor
    · rw [List.foldl_cons]
      rcases List.mem_cons.mp hmem with h | h
      · rw [h]
        split_ifs
        · exact List.mem_cons_of_mem x (List.mem_cons_self y ys)
        · exact List.mem_cons_self x (y :: ys)
      · exact List.mem_cons_of_mem x (List.mem_cons_of_mem y h)
    · intro q hq
      rw [List.foldl_cons]
      have hzle := hle _ (List.mem_cons_self _ ys)
      rcases List.mem_cons.mp hq with rfl | h
      · exact le_trans hzle hz1
      · rcases List.mem_cons.mp h with rfl | h2
        · exact le_trans hzle hz2
        · exact hle q (List.mem_cons_of_mem _ h2)

/-- `min_by` returns `none` exactly on the empty list. -/
theorem min_by_dist_eq_none (l : List (VisObj × ℝ)) :
    min_by_dist l = none ↔ l = [] := by
  cases l <;> simp [min_by_dist]

/-- What `min_by` returns is a minimal-distance element of its input. -/
theorem min_by_dist_spec (l : List (VisObj × ℝ)) (p : VisObj × ℝ)
    (h : min_by_dist l = some p) : p ∈ l ∧ ∀ q ∈ l, p.2 ≤ q.2 := by
  cases l with
  | nil => cases h
  | cons x xs =>
    unfold min_by_dist at h
    injection h with h
    obtain ⟨hmem, hle⟩ := min_by_fold_spec xs x
    exact ⟨h ▸ hmem, fun q hq => h ▸ hle q hq⟩

/-- C4: the nearest-object trace answers `none` exactly when no object's
surface reports an intersection, and otherwise returns an object of the
scene together with its own reported distance, which is less than or equal
to every other reported intersection distance. -/
theorem trace_to_nearest_object_spec (s : Scene) (ray_origin ray_direction : Vec3f) :
    (s.trace_to_nearest_object ray_origin ray_direction = none ↔
      ∀ vobj ∈ s.objects, vobj.surface.intersection_with_ray ray_origin ray_direction = none) ∧
      ∀ vobj dist, s.trace_to_nearest_object ray_origin ray_direction = some (vobj, dist) →
        vobj ∈ s.objects ∧
          vobj.surface.intersection_with_ray ray_origin ray_direction = some dist ∧
          ∀ vobj2 ∈ s.objects, ∀ dist2,
            vobj2.surface.intersection_with_ray ray_origin ray_direction = some dist2 →
              dist ≤ dist2 := by
  constructor
  · rw [Scene.trace_to_nearest_object, min_by_dist_eq_none, List.filterMap_eq_nil_iff]
    constructor
    · intro h vobj hv
      have := h vobj hv
      rwa [Option.map_eq_none'] at this
    · intro h vobj hv
      rw [Option.map_eq_none']
      exact h vobj hv
  · intro vobj dist h
    rw [Scene.trace_to_nearest_object] at h
    obtain ⟨hmem, hle⟩ := min_by_dist_spec _ _ h
    rw [List.mem_filterMap] at hmem
    obtain ⟨a, ha, hfa⟩ := hmem
    rw [Option.map_eq_some'] at hfa
    obtain ⟨d0, hd0, heq⟩ := hfa
    have hva : a = vobj := congrArg Prod.fst heq
    have hda : d0 = dist := congrArg Prod.snd heq
    subst hva
    subst hda
    refine ⟨ha, hd0, ?_⟩
    intro vobj2 hv2 dist2 hint2
    exact hle (vobj2, dist2) (List.mem_filterMap.mpr ⟨vobj2, hv2, by rw [hint2]; rfl⟩)

/-- The saturating `i32` cast is the identity on the `i32` range. -/
theorem i32sat_eq_self (x : ℤ) (hlo : -(2 ^ 31) ≤ x) (hhi : x ≤ 2 ^ 31 - 1) :
    i32sat x = x := by
  unfold i32sat
  rw [min_eq_right hhi, max_eq_right hlo]

/-- The wrapping `i32` embedding is the identity on the `i32` range. -/
theorem i32wrap_eq_self (x : ℤ) (hlo : -(2 ^ 31) ≤ x) (hhi : x ≤ 2 ^ 31 - 1) :
    i32wrap x = x := by
  unfold i32wrap
  have h31 : ((2 : ℤ) ^ 31) = 2147483648 := by norm_num
  have h32 : ((2 : ℤ) ^ 32) = 4294967296 := by norm_num
  rw [h31, h32] at *
  omega

/-- `Checkerboard::color` consults exactly the sub-texture selected by
`Checkerboard.consulted`, handing it the fractional parts of the
coordinates, and panics (`none`) when no sub-texture is selected. -/
theorem checkerboard_color_eq_consulted (t1 t2 : ℝ → ℝ → TextureColor) (u v : ℝ) :
    Checkerboard.color t1 t2 u v =
      (Checkerboard.consulted u v).map fun i =>
        if i = 0 then t1 (u - ⌊u⌋) (v - ⌊v⌋) else t2 (u - ⌊u⌋) (v - ⌊v⌋) := by
  unfold Checkerboard.color Checkerboard.consulted Checkerboard.selector
  dsimp only
  split_ifs with h1 h2 <;> simp

/-- In the range where the biased checker index stays non-negative and its
`i32` addition does not overflow, the consulted sub-texture is decided by
the parity of the biased index. -/
theorem checkerboard_consulted_in_range (u v : ℝ)
    (hlo : -1000000 ≤ ⌊u⌋ + ⌊v⌋) (hhi : ⌊u⌋ + ⌊v⌋ + 1000000 ≤ 2 ^ 31 - 1) :
    Checkerboard.consulted u v =
      (if (⌊u⌋ + ⌊v⌋ + 1000000) % 2 = 0 then some 0 else some 1) := by
  have h31 : ((2 : ℤ) ^ 31 : ℤ) = 2147483648 := by norm_num
  unfold Checkerboard.consulted Checkerboard.selector
  rw [i32sat_eq_self _ (by omega) (by omega)]
  rw [i32wrap_eq_self _ (by omega) (by omega)]
  rw [Int.tmod_eq_emod (by omega) (by norm_num)]
  by_cases hpar : (⌊u⌋ + ⌊v⌋ + 1000000) % 2 = 0
  · simp [hpar]
  · have h1 : (⌊u⌋ + ⌊v⌋ + 1000000) % 2 = 1 := by omega
    simp [hpar, h1]

/-- C7 (evaluation at the failing input): at `(u, v) = (-1000000.5, 0.5)`
the checker-selection expression evaluates to `-1` — Rust's `%` keeps the
sign of the dividend — so the dispatch falls through to the
`unreachable!` branch and `Checkerboard::color` panics. -/
theorem checkerboard_selector_panic :
    Checkerboard.selector (-1000000.5) (1 / 2) = -1 ∧
      Checkerboard.color exampleTexture1 exampleTexture2 (-1000000.5) (1 / 2) = none := by
  have hf : (⌊(-1000000.5 : ℝ)⌋ : ℤ) = -1000001 := by norm_num
  have hg : (⌊(1 / 2 : ℝ)⌋ : ℤ) = 0 := by norm_num
  have hsel : Checkerboard.selector (-1000000.5) (1 / 2) = -1 := by
    unfold Checkerboard.selector
    rw [hf, hg]
    rw [i32sat_eq_self _ (by norm_num) (by norm_num)]
    unfold i32wrap
    decide
  refine ⟨hsel, ?_⟩
  rw [checkerboard_color_eq_consulted]
  unfold Checkerboard.consulted
  rw [hsel]
  norm_num

/-- C9 counterexample: moving two squares over in `u` from
`(-1000000.5, 0.5)` does not return to the originally consulted
sub-texture: at the original sample no sub-texture is consulted at all
(the dispatch panics), while two squares over the second sub-texture is
consulted. -/
theorem checkerboard_period_two_counterexample :
    ((-999998.5 : ℝ) = -1000000.5 + 2) ∧
      Checkerboard.consulted (-1000000.5) (1 / 2) = none ∧
        Checkerboard.consulted (-999998.5) (1 / 2) = some 1 ∧
          Checkerboard.color exampleTexture1 exampleTexture2 (-1000000.5) (1 / 2) = none ∧
            Checkerboard.color exampleTexture1 exampleTexture2 (-999998.5) (1 / 2) =
              some (.plainColor ⟨0, 1, 0⟩) := by
  have hf : (⌊(-1000000.5 : ℝ)⌋ : ℤ) = -1000001 := by norm_num
  have hf2 : (⌊(-999998.5 : ℝ)⌋ : ℤ) = -999999 := by norm_num
  have hg : (⌊(1 / 2 : ℝ)⌋ : ℤ) = 0 := by norm_num
  have hsel : Checkerboard.selector (-1000000.5) (1 / 2) = -1 := by
    unfold Checkerboard.selector
    rw [hf, hg]
    rw [i32sat_eq_self _ (by norm_num) (by norm_num)]
    unfold i32wrap
    decide
  have hsel2 : Checkerboard.selector (-999998.5) (1 / 2) = 1 := by
    unfold Checkerboard.selector
    rw [hf2, hg]
    rw [i32sat_eq_self _ (by norm_num) (by norm_num)]
    unfold i32wrap
    decide
  have hcons : Checkerboard.consulted (-1000000.5) (1 / 2) = none := by
    unfold Checkerboard.consulted
    rw [hsel]
    norm_num
  have hcons2 : Checkerboard.consulted (-999998.5) (1 / 2) = some 1 := by
    unfold Checkerboard.consulted
    rw [hsel2]
    norm_num
  refine ⟨by norm_num, hcons, hcons2, ?_, ?_⟩
  · rw [checkerboard_color_eq_consulted, hcons]
    rfl
  · rw [checkerboard_color_eq_consulted, hcons2]
    rfl

/-- C9 as amended: wherever the biased checker index keeps the selector in
the dispatched range `{0, 1}` for the shifted samples too — the floor sum
at least `-1000000` so the bias keeps the remainder non-negative, and
small enough that the biased `i32` addition does not overflow even two
squares over — moving one square over in `u` changes the consulted
sub-texture and moving two squares over returns to it; concretely,
`(0.4, 0.4)` dispatches to the first sub-texture, `(1.4, 0.4)` to the
second, and `(2.4, 0.4)` again to the first, each receiving the
fractional parts of the coordinates. -/
theorem checkerboard_alternation_amended :
    (∀ u v : ℝ, -1000000 ≤ ⌊u⌋ + ⌊v⌋ → ⌊u⌋ + ⌊v⌋ + 1000002 ≤ 2 ^ 31 - 1 →
        Checkerboard.consulted (u + 1) v ≠ Checkerboard.consulted u v ∧
          Checkerboard.consulted (u + 2) v = Checkerboard.consulted u v) ∧
      ∀ t1 t2 : ℝ → ℝ → TextureColor,
        Checkerboard.color t1 t2 0.4 0.4 = some (t1 0.4 0.4) ∧
          Checkerboard.color t1 t2 1.4 0.4 = some (t2 0.4 0.4) ∧
            Checkerboard.color t1 t2 2.4 0.4 = some (t1 0.4 0.4) := by
  constructor
  · intro u v hlo hhi
    have h31 : ((2 : ℤ) ^ 31 : ℤ) = 2147483648 := by norm_num
    have hf1 : ⌊u + (1 : ℝ)⌋ = ⌊u⌋ + 1 := Int.floor_add_one u
    have hf2 : ⌊u + (2 : ℝ)⌋ = ⌊u⌋ + 2 := by
      rw [show (2 : ℝ) = ((2 : ℤ) : ℝ) by norm_num, Int.floor_add_int]
    rw [checkerboard_consulted_in_range u v hlo (by omega),
      checkerboard_consulted_in_range (u + 1) v (by rw [hf1]; omega) (by rw [hf1]; omega),
      checkerboard_consulted_in_range (u + 2) v (by rw [hf2]; omega) (by rw [hf2]; omega),
      hf1, hf2]
    constructor
    · by_cases hpar : (⌊u⌋ + ⌊v⌋ + 1000000) % 2 = 0
      · rw [if_pos hpar, if_neg (by omega)]
        simp
      · rw [if_neg hpar, if_pos (by omega)]
        simp
    · by_cases hpar : (⌊u⌋ + ⌊v⌋ + 1000000) % 2 = 0
      · rw [if_pos hpar, if_pos (by omega)]
      · rw [if_neg hpar, if_neg (by omega)]
  · intro t1 t2
    have f04 : (⌊(0.4 : ℝ)⌋ : ℤ) = 0 := by norm_num
    have f14 : (⌊(1.4 : ℝ)⌋ : ℤ) = 1 := by norm_num
    have f24 : (⌊(2.4 : ℝ)⌋ : ℤ) = 2 := by norm_num
    refine ⟨?_, ?_, ?_⟩ <;>
      · rw [checkerboard_color_eq_consulted,
          checkerboard_consulted_in_range _ _ (by norm_num) (by norm_num)]
        norm_num [f04, f14, f24]

/-- A mapped range whose generator is symmetric about the midpoint is its
own reverse. -/
theorem map_range_reverse_of_symm {α : Type} (n : ℕ) (F : ℕ → α)
    (h : ∀ i < n, F (n - 1 - i) = F i) :
    ((List.range n).map F).reverse = (List.range n).map F := by
  apply List.ext_getElem
  · simp
  · intro i h1 h2
    simp only [List.length_reverse, List.length_map, List.length_range] at h1 h2
    rw [List.getElem_reverse]
    simp only [List.getElem_map, List.getElem_range]
    simp only [List.length_map, List.length_range]
    exact h i h2

/-- For every positive sigma the Gaussian kernel reads the same backwards:
either its `i32` length is `2 * half + 1` and the generator is symmetric
about `half`, or the length computation wrapped around and the kernel is
empty. -/
theorem gaussian_kernel_symm (sigma : ℝ) (hs : 0 < sigma) :
    (gaussian_kernel sigma).reverse = gaussian_kernel sigma := by
  have h31 : ((2 : ℤ) ^ 31) = 2147483648 := by norm_num
  have h32 : ((2 : ℤ) ^ 32) = 4294967296 := by norm_num
  set H : ℤ := i32sat ⌈sigma * 3⌉ with hH
  have hH1 : 1 ≤ H := by
    have hc : 1 ≤ ⌈sigma * 3⌉ := Int.ceil_pos.mpr (by linarith)
    rw [hH]
    unfold i32sat
    rw [h31]
    omega
  have hHub : H ≤ 2 ^ 31 - 1 := by
    rw [hH]
    unfold i32sat
    rw [h31]
    omega
  unfold gaussian_kernel
  dsimp only
  rw [← hH]
  by_cases hbig : H * 2 + 1 ≤ 2 ^ 31 - 1
  · have hlen : i32wrap (H * 2 + 1) = H * 2 + 1 := i32wrap_eq_self _ (by omega) hbig
    rw [hlen]
    have hn : (H * 2 + 1).toNat = 2 * H.toNat + 1 := by omega
    rw [hn, List.map_map]
    apply map_range_reverse_of_symm
    intro i hi
    simp only [Function.comp_apply]
    have hint : ((2 * H.toNat + 1 - 1 - i : ℕ) : ℤ) - H = -((i : ℤ) - H) := by omega
    rw [hint]
    push_cast
    ring_nf
  · have hlen : i32wrap (H * 2 + 1) = H * 2 + 1 - 2 ^ 32 := by
      unfold i32wrap
      rw [h31, h32]
      rw [h31] at hbig hHub
      omega
    rw [hlen]
    have hneg : (H * 2 + 1 - 2 ^ 32).toNat = 0 := by
      rw [h32]
      rw [h31] at hHub
      omega
    rw [hneg]
    simp

/-- Closed form of the kernel sum at sigma = 1: seven samples of the
normal density at the integers -3..3. -/
theorem gaussian_kernel_one_sum : (gaussian_kernel 1).sum =
    (1 / Real.sqrt (2 * π)) *
      (2 * Real.exp (-(9 / 2)) + 2 * Real.exp (-2) + 2 * Real.exp (-(1 / 2)) + 1) := by
  have hceil : (⌈(1 : ℝ) * 3⌉ : ℤ) = 3 := by norm_num
  have hsat : i32sat 3 = 3 := by
    unfold i32sat
    norm_num
  have hwrap : i32wrap (3 * 2 + 1) = 7 := by
    unfold i32wrap
    decide
  unfold gaussian_kernel
  dsimp only
  rw [hceil, hsat, hwrap]
  rw [show ((7 : ℤ).toNat) = 7 from rfl]
  rw [show List.range 7 = [0, 1, 2, 3, 4, 5, 6] from rfl]
  simp only [List.map_cons, List.map_nil, List.sum_cons, List.sum_nil]
  norm_num
  ring

/-- Two-sided bounds on `exp (-1/2)`, from the nine-decimal bounds on
`e`. -/
theorem exp_neg_half_bounds :
    0.6065 < Real.exp (-(1 / 2)) ∧ Real.exp (-(1 / 2)) < 0.6066 := by
  have hmul : Real.exp (-(1 / 2)) * Real.exp (-(1 / 2)) * Real.exp 1 = 1 := by
    rw [← Real.exp_add, ← Real.exp_add]
    norm_num
  have hpos : 0 < Real.exp (-(1 / 2)) := Real.exp_pos _
  have hE1 := Real.exp_one_gt_d9
  have hE2 := Real.exp_one_lt_d9
  constructor
  · by_contra hc
    push_neg at hc
    nlinarith
  · by_contra hc
    push_neg at hc
    nlinarith

/-- Two-sided bounds on `exp (-2)`. -/
theorem exp_neg_two_bounds :
    0.1353 < Real.exp (-2) ∧ Real.exp (-2) < 0.13534 := by
  have hmul : Real.exp (-2) * (Real.exp 1 * Real.exp 1) = 1 := by
    rw [← Real.exp_add, ← Real.exp_add]
    norm_num
  have hpos : 0 < Real.exp (-2 : ℝ) := Real.exp_pos _
  have hE1 := Real.exp_one_gt_d9
  have hE2 := Real.exp_one_lt_d9
  constructor
  · by_contra hc
    push_neg at hc
    nlinarith
  · by_contra hc
    push_neg at hc
    nlinarith

/-- Two-sided bounds on `exp (-9/2)`. -/
theorem exp_neg_nine_halves_bounds :
    0.0111 < Real.exp (-(9 / 2)) ∧ Real.exp (-(9 / 2)) < 0.01112 := by
  have hmul : Real.exp (-(9 / 2)) = Real.exp (-2) * Real.exp (-2) * Real.exp (-(1 / 2)) := by
    rw [← Real.exp_add, ← Real.exp_add]
    norm_num
  obtain ⟨h1, h2⟩ := exp_neg_two_bounds
  obtain ⟨h3, h4⟩ := exp_neg_half_bounds
  have hpos : 0 < Real.exp (-2 : ℝ) := Real.exp_pos _
  have hpos2 : 0 < Real.exp (-(1 / 2) : ℝ) := Real.exp_pos _
  constructor <;> rw [hmul] <;> nlinarith

/-- Two-sided bounds on `sqrt (2 * pi)`. -/
theorem sqrt_two_pi_bounds :
    2.5066 < Real.sqrt (2 * π) ∧ Real.sqrt (2 * π) < 2.5067 := by
  have hsq : Real.sqrt (2 * π) ^ 2 = 2 * π := Real.sq_sqrt (by positivity)
  have hnn : 0 ≤ Real.sqrt (2 * π) := Real.sqrt_nonneg _
  have hp1 := Real.pi_gt_d6
  have hp2 := Real.pi_lt_d6
  constructor
  · nlinarith
  · nlinarith

/-- C8 counterexample: at `sigma = 0.1` the Gaussian kernel's elements sum
to more than 3 (the central element alone is `1 / sqrt (0.02 * pi)`,
which is about 3.99), so the sum is nowhere near 1.0. -/
theorem gaussian_kernel_sum_not_one_counterexample :
    3 < (gaussian_kernel (1 / 10)).sum := by
  have hceil : (⌈(1 / 10 : ℝ) * 3⌉ : ℤ) = 1 := by
    rw [Int.ceil_eq_iff]
    constructor <;> norm_num
  have hsat : i32sat 1 = 1 := by
    unfold i32sat
    norm_num
  have hwrap : i32wrap (1 * 2 + 1) = 3 := by
    unfold i32wrap
    decide
  have hsum : (gaussian_kernel (1 / 10)).sum =
      (1 / Real.sqrt (2 * π * (1 / 10) * (1 / 10))) * (2 * Real.exp (-50) + 1) := by
    unfold gaussian_kernel
    dsimp only
    rw [hceil, hsat, hwrap]
    rw [show ((3 : ℤ).toNat) = 3 from rfl]
    rw [show List.range 3 = [0, 1, 2] from rfl]
    simp only [List.map_cons, List.map_nil, List.sum_cons, List.sum_nil]
    norm_num
    ring
  rw [hsum]
  have hApos : (0 : ℝ) < 2 * π * (1 / 10) * (1 / 10) := by positivity
  have hsq : Real.sqrt (2 * π * (1 / 10) * (1 / 10)) ^ 2 = 2 * π * (1 / 10) * (1 / 10) :=
    Real.sq_sqrt hApos.le
  have hspos : 0 < Real.sqrt (2 * π * (1 / 10) * (1 / 10)) := Real.sqrt_pos.mpr hApos
  have hp2 := Real.pi_lt_d2
  have hlt : Real.sqrt (2 * π * (1 / 10) * (1 / 10)) < 1 / 3 := by
    nlinarith
  have hepos : 0 < Real.exp (-50 : ℝ) := Real.exp_pos _
  have hinv : (1 / Real.sqrt (2 * π * (1 / 10) * (1 / 10))) *
      Real.sqrt (2 * π * (1 / 10) * (1 / 10)) = 1 := by
    field_simp
  nlinarith

/-- C8 as amended: for every sigma > 0 the Gaussian kernel is symmetric
(it equals its own reverse, hence element `i` equals element
`length - 1 - i`), and the elements sum to approximately 1.0 for sigma
around 1 or larger — at sigma = 1 the sum is within 1/100 of 1 — though
not for small sigma. -/
theorem gaussian_kernel_amended :
    (∀ sigma : ℝ, 0 < sigma →
        (gaussian_kernel sigma).reverse = gaussian_kernel sigma ∧
          ∀ i < (gaussian_kernel sigma).length,
            (gaussian_kernel sigma).getD i 0 =
              (gaussian_kernel sigma).getD ((gaussian_kernel sigma).length - 1 - i) 0) ∧
      |(gaussian_kernel 1).sum - 1| ≤ 1 / 100 := by
  constructor
  · intro sigma hs
    have hrev := gaussian_kernel_symm sigma hs
    refine ⟨hrev, ?_⟩
    intro i hi
    rw [List.getD_eq_getElem?_getD, List.getD_eq_getElem?_getD]
    conv_lhs => rw [← hrev]
    rw [List.getElem?_reverse (by simpa using hi)]
  · rw [gaussian_kernel_one_sum]
    obtain ⟨ha1, ha2⟩ := exp_neg_half_bounds
    obtain ⟨hb1, hb2⟩ := exp_neg_two_bounds
    obtain ⟨hd1, hd2⟩ := exp_neg_nine_halves_bounds
    obtain ⟨hs1, hs2⟩ := sqrt_two_pi_bounds
    have hspos : (0 : ℝ) < Real.sqrt (2 * π) := by linarith
    have hinv : (1 / Real.sqrt (2 * π)) * Real.sqrt (2 * π) = 1 := by
      field_simp
    have hcpos : (0 : ℝ) < 1 / Real.sqrt (2 * π) := by positivity
    have hc1 : (0.39893 : ℝ) < 1 / Real.sqrt (2 * π) := by nlinarith
    have hc2 : (1 / Real.sqrt (2 * π) : ℝ) < 0.39895 := by nlinarith
    rw [abs_le]
    constructor
    · nlinarith
    · nlinarith

end

end Raymond
